import Mathlib

/-!
Shallow embedding of the delegated-operation execution service
(`fiftyone/operators/delegated.py`, class `DelegatedOperationService`).

The persistence repository, the operator resolver
(`prepare_operator_executor`) and the operators themselves are external
collaborators of this slice; they are modelled from the spec's contracts
(each such definition carries a doc comment starting `Modelled from the
spec:`).  Everything in the `FO` namespace that is not so marked is a
direct translation of the source in `delegated.py`.

Exceptions are modelled with `Except String`; an exception value is the
string that `traceback.format_exc()` would capture.  Repository calls,
state transitions, operator resolutions, operator invocations and log
lines are recorded in an event trace so that temporal claims (ordering,
"never transitioned to RUNNING", observational purity of the `log` flag)
can be stated.
-/

namespace FO

/-- Run states of a delegated operation document (`ExecutionRunState`). -/
inductive ExecutionRunState
  | queued
  | running
  | completed
  | failed
deriving DecidableEq, Repr

/-- Values stored in a request-parameter mapping.  A document id can be
stored as a value (the `run_doc` injection); everything else is opaque. -/
inductive ParamValue
  | vId (n : Nat)
  | vStr (s : String)
deriving DecidableEq, Repr

/-- Request parameters: a string-keyed mapping, as an association list. -/
abbrev RequestParams := List (String × ParamValue)

/-- Execution context: carries the request parameters
(`fiftyone.operators.executor.ExecutionContext`). -/
structure ExecutionContext where
  request_params : RequestParams
deriving DecidableEq, Repr

/-- `ExecutionResult`: wraps a success payload or an error trace. -/
structure ExecutionResult where
  result : Option ParamValue
  error : Option String
deriving DecidableEq, Repr

/-- A delegated operation document (`DelegatedOperationDocument`). -/
structure DelegatedOperationDocument where
  id : Nat
  operator : String
  delegation_target : Option String
  dataset_name : Option String
  context : ExecutionContext
  run_state : ExecutionRunState
  result : Option ExecutionResult
  pinned : Bool
deriving DecidableEq, Repr

abbrev Doc := DelegatedOperationDocument

/-- Paging parameters (`DelegatedOpPagingParams`); only `limit` is used by
the code under study. -/
structure DelegatedOpPagingParams where
  limit : Nat
deriving DecidableEq, Repr

/-- Modelled from the spec: an executable operator's behaviour when its
execution entry point is invoked (`ExecutableOperator.execute`): it either
returns an `ExecutionResult` or raises an exception with a message. -/
inductive ExecBehavior
  | returns (r : ExecutionResult)
  | throws (msg : String)
deriving DecidableEq, Repr

/-- Modelled from the spec: a registry entry for an operator identifier:
resolution either yields an immediate failure result or an executable
operator with the given behaviour. -/
inductive OperatorDef
  | resolveFails (r : ExecutionResult)
  | resolvesTo (b : ExecBehavior)
deriving DecidableEq, Repr

/-- The external operator registry consulted by the resolver. -/
structure Env where
  registry : List (String × OperatorDef)
deriving DecidableEq, Repr

/-- Outcome of operator resolution: an immediate failure result, or an
executable operator bound to an execution context carrying the request
parameters it was given. -/
inductive PrepareOutcome
  | failure (r : ExecutionResult)
  | prepared (b : ExecBehavior) (ctxParams : RequestParams)
deriving DecidableEq, Repr

/-- Modelled from the spec: `prepare_operator_executor` (an external
collaborator, `fiftyone.operators.executor`): given an operator identifier
and request parameters, yields an executable operator bound to an
execution context carrying those parameters, or an immediate failure
result (operator not found, resolution failure). -/
def prepare_operator_executor (env : Env) (uri : String)
    (params : RequestParams) : PrepareOutcome :=
  match env.registry.lookup uri with
  | none => .failure ⟨none, some ("Operator " ++ uri ++ " does not exist")⟩
  | some (.resolveFails r) => .failure r
  | some (.resolvesTo b) => .prepared b params

/-- State of the external repository: the stored documents, a fresh-id
counter, and the set of (document id, run state) pairs at which an
`update_run_state` call raises a repository error. -/
structure RepoState where
  docs : List Doc
  nextId : Nat
  failures : List (Nat × ExecutionRunState)
deriving DecidableEq, Repr

/-- Modelled from the spec: repository `get` — the stored document with
the given id, if any. -/
def RepoState.get (repo : RepoState) (i : Nat) : Option Doc :=
  repo.docs.find? (fun d => d.id == i)

/-- Modelled from the spec: repository `queue_operation` — creates a new
document with state QUEUED and a fresh id, carrying the given
operator/delegation_target/context; the result field is empty and the
pinned flag is off. -/
def RepoState.queue_operation (repo : RepoState) (operator : String)
    (delegation_target : Option String) (context : ExecutionContext) :
    Doc × RepoState :=
  let d : Doc :=
    ⟨repo.nextId, operator, delegation_target, none, context, .queued,
      none, false⟩
  (d, { repo with docs := repo.docs ++ [d], nextId := repo.nextId + 1 })

/-- The per-document effect of `update_run_state`: write the run state
(and the result, when one is passed) of the document with the given id;
leave every other document alone. -/
def applyUpd (i : Nat) (st : ExecutionRunState)
    (result : Option ExecutionResult) (d : Doc) : Doc :=
  if d.id = i then
    { d with run_state := st,
             result := match result with
                       | some r => some r
                       | none => d.result }
  else d

/-- Modelled from the spec: repository `update_run_state` — writes the run
state (and the result, when one is passed) of the matching document,
unconditionally; a configured repository failure raises instead. -/
def RepoState.update_run_state (repo : RepoState) (i : Nat)
    (st : ExecutionRunState) (result : Option ExecutionResult) :
    Except String RepoState :=
  if (i, st) ∈ repo.failures then
    .error "repository error"
  else
    .ok { repo with docs := repo.docs.map (applyUpd i st result) }

/-- One optional equality filter: absent means "match everything". -/
def optFilter {α : Type} [BEq α] : Option α → α → Bool
  | none, _ => true
  | some x, y => x == y

/-- Modelled from the spec: repository `list_operations` — the stored
documents matching all present filters conjunctively, in storage order,
truncated by the paging limit when paging is given. -/
def RepoState.list_operations (repo : RepoState) (operator : Option String)
    (dataset_name : Option String) (run_state : Option ExecutionRunState)
    (delegation_target : Option String)
    (paging : Option DelegatedOpPagingParams) : List Doc :=
  let filtered := repo.docs.filter (fun d =>
    optFilter operator d.operator
      && optFilter (dataset_name.map some) d.dataset_name
      && optFilter run_state d.run_state
      && optFilter (delegation_target.map some) d.delegation_target)
  match paging with
  | none => filtered
  | some p => filtered.take p.limit

/-! ### The service (translation of `DelegatedOperationService`) -/

/-- `DelegatedOperationService.queue_operation` (delegated.py 39-60):
straight pass-through to the repository. -/
def queue_operation (repo : RepoState) (operator : String)
    (delegation_target : Option String) (context : ExecutionContext) :
    Doc × RepoState :=
  repo.queue_operation operator delegation_target context

/-- `set_running` (delegated.py 62-65). -/
def set_running (repo : RepoState) (doc_id : Nat) : Except String RepoState :=
  repo.update_run_state doc_id .running none

/-- `set_completed` (delegated.py 67-72); the result argument defaults to
`None` in the source, hence the `Option`. -/
def set_completed (repo : RepoState) (doc_id : Nat)
    (result : Option ExecutionResult) : Except String RepoState :=
  repo.update_run_state doc_id .completed result

/-- `set_failed` (delegated.py 74-79); its result argument is mandatory. -/
def set_failed (repo : RepoState) (doc_id : Nat) (result : ExecutionResult) :
    Except String RepoState :=
  repo.update_run_state doc_id .failed (some result)

/-- `rerun_operation` (delegated.py 92-94): fetches the stored document
and queues a new one from its fields (the repository assigns the fresh id
and the QUEUED state). -/
def rerun_operation (repo : RepoState) (doc_id : Nat) :
    Except String (Doc × RepoState) :=
  match repo.get doc_id with
  | none => .error "no document found"
  | some doc =>
      .ok (repo.queue_operation doc.operator doc.delegation_target
        doc.context)

/-- `list_operations` (delegated.py 106-124): pass-through to the
repository. -/
def list_operations (repo : RepoState) (operator : Option String)
    (dataset_name : Option String) (run_state : Option ExecutionRunState)
    (delegation_target : Option String)
    (paging : Option DelegatedOpPagingParams) : List Doc :=
  repo.list_operations operator dataset_name run_state delegation_target
    paging

/-! ### Batch execution with an event trace -/

/-- Observable events of a batch-execution run: repository state
transitions, resolver calls, operator invocations, and log lines. -/
inductive Event
  | resolve (uri : String) (params : RequestParams)
  | execCall (uri : String) (ctxParams : RequestParams)
  | updateState (i : Nat) (st : ExecutionRunState)
      (result : Option ExecutionResult)
  | logMsg (s : String)
deriving DecidableEq, Repr

/-- Python dict assignment `params[k] = v`: overwrite the key. -/
def setParam (ps : RequestParams) (k : String) (v : ParamValue) :
    RequestParams :=
  (k, v) :: ps.filter (fun p => p.1 != k)

/-- The trace `traceback.format_exc()` would capture for an exception
carrying the given message. -/
def format_exc (msg : String) : String :=
  "Traceback (most recent call last): " ++ msg

/-- `logger.info` under `if log:` — one log event when enabled. -/
def logEv (log : Bool) (s : String) : List Event :=
  if log then [Event.logMsg s] else []

/-- `_execute_operator` (delegated.py 169-183): inject the document id
into the context's request parameters under the key `run_doc`, resolve
the operator; on an immediate failure result transition to FAILED (and
fall off the end, returning `None`); otherwise transition to RUNNING and
invoke the operator's execution entry point, returning its result.
Returns the (possibly raising) Python return value, the repository state,
and the events that occurred. -/
def _execute_operator (env : Env) (repo : RepoState) (doc : Doc) :
    Except String (Option ExecutionResult) × RepoState × List Event :=
  let params := setParam doc.context.request_params "run_doc"
    (.vId doc.id)
  match prepare_operator_executor env doc.operator params with
  | .failure r =>
      let evs := [Event.resolve doc.operator params,
        Event.updateState doc.id .failed (some r)]
      match set_failed repo doc.id r with
      | .ok repo1 => (.ok none, repo1, evs)
      | .error e => (.error e, repo, evs)
  | .prepared b ctxParams =>
      match set_running repo doc.id with
      | .error e =>
          (.error e, repo, [Event.resolve doc.operator params,
            Event.updateState doc.id .running none])
      | .ok repo1 =>
          let evs := [Event.resolve doc.operator params,
            Event.updateState doc.id .running none,
            Event.execCall doc.operator ctxParams]
          match b with
          | .returns r => (.ok (some r), repo1, evs)
          | .throws msg => (.error msg, repo1, evs)

/-- The `except Exception` handler of the batch loop (delegated.py
163-167): build a failure result from the error trace, transition the
document to FAILED, and log; an error raised by `set_failed` itself
propagates. -/
def handleFailure (log : Bool) (repo : RepoState) (op : Doc)
    (evs : List Event) (e : String) :
    RepoState × List Event × Option String :=
  let r : ExecutionResult := ⟨none, some (format_exc e)⟩
  match set_failed repo op.id r with
  | .ok repo1 =>
      (repo1, evs ++ [Event.updateState op.id .failed (some r)]
        ++ logEv log ("Operation " ++ toString op.id ++ " failed"), none)
  | .error e2 =>
      (repo, evs ++ [Event.updateState op.id .failed (some r)], some e2)

/-- One iteration of the batch loop (delegated.py 148-167): run
`_execute_operator`, then `set_completed` with its return value; any
exception is caught and handled by `handleFailure`.  The third component
is the exception propagating out of the iteration, if any. -/
def execOne (env : Env) (log : Bool) (repo : RepoState) (op : Doc) :
    RepoState × List Event × Option String :=
  let startEvs := logEv log ("Running operation " ++ toString op.id
    ++ " (" ++ op.operator ++ ")")
  match _execute_operator env repo op with
  | (.ok result, repo1, evs) =>
      match set_completed repo1 op.id result with
      | .ok repo2 =>
          (repo2, startEvs ++ evs
            ++ [Event.updateState op.id .completed result]
            ++ logEv log ("Operation " ++ toString op.id ++ " complete"),
            none)
      | .error e =>
          handleFailure log repo1 op (startEvs ++ evs
            ++ [Event.updateState op.id .completed result]) e
  | (.error e, repo1, evs) =>
      handleFailure log repo1 op (startEvs ++ evs) e

/-- The batch loop over the queued documents, sequential and in list
order; an exception propagating out of one iteration aborts the loop
(exactly as an uncaught Python exception would). -/
def execLoop (env : Env) (log : Bool) :
    List Doc → RepoState → RepoState × List Event × Option String
  | [], repo => (repo, [], none)
  | op :: rest, repo =>
      match execOne env log repo op with
      | (repo1, evs1, some e) => (repo1, evs1, some e)
      | (repo1, evs1, none) =>
          match execLoop env log rest repo1 with
          | (repo2, evs2, exc) => (repo2, evs1 ++ evs2, exc)

/-- `execute_queued_operations` (delegated.py 126-167): build paging from
`limit` when given, list the QUEUED documents matching the filters, and
run the batch loop over them. -/
def execute_queued_operations (env : Env) (operator : Option String)
    (delegation_target : Option String) (dataset_name : Option String)
    (limit : Option Nat) (log : Bool) (repo : RepoState) :
    RepoState × List Event × Option String :=
  let paging := limit.map DelegatedOpPagingParams.mk
  let queued := list_operations repo operator dataset_name (some .queued)
    delegation_target paging
  execLoop env log queued repo

/-! ### Observation helpers -/

/-- The run state of the stored document with the given id. -/
def stateOf (repo : RepoState) (i : Nat) : Option ExecutionRunState :=
  (repo.get i).map (fun d => d.run_state)

/-- The result field of the stored document with the given id. -/
def resultOf (repo : RepoState) (i : Nat) :
    Option (Option ExecutionResult) :=
  (repo.get i).map (fun d => d.result)

/-- Whether an event is a log line. -/
def Event.isLogMsg : Event → Bool
  | .logMsg _ => true
  | _ => false

/-- The non-log (repository/resolver/operator) events of a trace. -/
def repoEvents (evs : List Event) : List Event :=
  evs.filter (fun e => !e.isLogMsg)

/-- The state transitions applied to the given document id, in order. -/
def updatesFor (i : Nat) (evs : List Event) :
    List (ExecutionRunState × Option ExecutionResult) :=
  evs.filterMap (fun e =>
    match e with
    | .updateState j st r => if j = i then some (st, r) else none
    | _ => none)

/-- How many resolver calls (one per processed document) a trace holds. -/
def countResolves (evs : List Event) : Nat :=
  (evs.filter (fun e =>
    match e with
    | .resolve _ _ => true
    | _ => false)).length

/-- Whether an execution-entry-point invocation for the given document id
appears in the trace: the injected `run_doc` parameter identifies the
document an `execCall` belongs to. -/
def execCalledFor (i : Nat) (evs : List Event) : Bool :=
  evs.any (fun e =>
    match e with
    | .execCall _ ps => ps.lookup "run_doc" == some (.vId i)
    | _ => false)

/-- COMPLETED and FAILED are the terminal run states. -/
def isTerminal : ExecutionRunState → Bool
  | .completed => true
  | .failed => true
  | _ => false

/-- Repository well-formedness: stored ids are distinct and below the
fresh-id counter. -/
def RepoState.WF (repo : RepoState) : Prop :=
  (repo.docs.map (fun d => d.id)).Nodup ∧
    ∀ d ∈ repo.docs, d.id < repo.nextId

/-- The events one batch-loop iteration produces for a document when the
repository raises no errors: this is what `execOne` emits, computed ahead
of time from the document and the registry alone. -/
def docTrace (env : Env) (log : Bool) (op : Doc) : List Event :=
  let params := setParam op.context.request_params "run_doc" (.vId op.id)
  let startEvs := logEv log ("Running operation " ++ toString op.id
    ++ " (" ++ op.operator ++ ")")
  match prepare_operator_executor env op.operator params with
  | .failure r =>
      startEvs ++ [Event.resolve op.operator params,
        Event.updateState op.id .failed (some r),
        Event.updateState op.id .completed none]
        ++ logEv log ("Operation " ++ toString op.id ++ " complete")
  | .prepared b ctxParams =>
      match b with
      | .returns r =>
          startEvs ++ [Event.resolve op.operator params,
            Event.updateState op.id .running none,
            Event.execCall op.operator ctxParams,
            Event.updateState op.id .completed (some r)]
            ++ logEv log ("Operation " ++ toString op.id ++ " complete")
      | .throws msg =>
          startEvs ++ [Event.resolve op.operator params,
            Event.updateState op.id .running none,
            Event.execCall op.operator ctxParams,
            Event.updateState op.id .failed
              (some ⟨none, some (format_exc msg)⟩)]
            ++ logEv log ("Operation " ++ toString op.id ++ " failed")

/-- `DrivenTo i st repo repo'` : between `repo` and `repo'` the batch
step drove the document `i` to run state `st` (when it is stored), left
every other document untouched, and did not change the repository's
failure configuration. -/
def DrivenTo (i : Nat) (st : ExecutionRunState)
    (repo repo' : RepoState) : Prop :=
  repo'.failures = repo.failures ∧
    (∀ j, j ≠ i → repo'.get j = repo.get j) ∧
    (∀ d, repo.get i = some d →
      ∃ d', repo'.get i = some d' ∧ d'.run_state = st)

/-! ### Concrete instances used by evaluation and witness theorems -/

/-- A queued document whose operator is not in the registry. -/
def docMissing : Doc :=
  ⟨0, "missing-op", none, none, ⟨[]⟩, .queued, none, false⟩

/-- A repository holding only `docMissing`, with no configured failures. -/
def repoMissing : RepoState := ⟨[docMissing], 1, []⟩

/-- An empty operator registry. -/
def envEmpty : Env := ⟨[]⟩

/-- The result returned by the `echo` operator below. -/
def echoResult : ExecutionResult := ⟨some (.vStr "hi"), none⟩

/-- A queued document for the `echo` operator. -/
def docEcho : Doc :=
  ⟨0, "echo", none, none, ⟨[("msg", .vStr "hi")]⟩, .queued, none, false⟩

/-- A queued document for the throwing `boom` operator. -/
def docBoom : Doc := ⟨1, "boom", none, none, ⟨[]⟩, .queued, none, false⟩

/-- A registry with a succeeding `echo` operator and a throwing `boom`
operator. -/
def envEchoBoom : Env :=
  ⟨[("echo", .resolvesTo (.returns echoResult)),
    ("boom", .resolvesTo (.throws "kaboom"))]⟩

/-- A repository queueing `echo` then `boom`, with no failures. -/
def repoTwo : RepoState := ⟨[docEcho, docBoom], 2, []⟩

/-- A repository queueing `echo` where the COMPLETED transition for
document 0 raises a repository error. -/
def repoCompleteFails : RepoState := ⟨[docEcho], 1, [(0, .completed)]⟩

/-! ### Repository lemmas -/

theorem applyUpd_id (i : Nat) (st : ExecutionRunState)
    (res : Option ExecutionResult) (d : Doc) :
    (applyUpd i st res d).id = d.id := by
  unfold applyUpd
  split <;> rfl

theorem update_run_state_ok_elim {repo repo' : RepoState} {i : Nat}
    {st : ExecutionRunState} {res : Option ExecutionResult}
    (h : repo.update_run_state i st res = .ok repo') :
    (i, st) ∉ repo.failures ∧
      repo' = { repo with docs := repo.docs.map (applyUpd i st res) } := by
  unfold RepoState.update_run_state at h
  split at h
  · exact absurd h (by simp)
  · next hmem => exact ⟨hmem, (Except.ok.inj h).symm⟩

theorem update_run_state_ok_of_not_mem {repo : RepoState} {i : Nat}
    {st : ExecutionRunState} (res : Option ExecutionResult)
    (h : (i, st) ∉ repo.failures) :
    repo.update_run_state i st res =
      .ok { repo with docs := repo.docs.map (applyUpd i st res) } := by
  unfold RepoState.update_run_state
  simp [h]

theorem update_run_state_error_elim {repo : RepoState} {i : Nat}
    {st : ExecutionRunState} {res : Option ExecutionResult} {e : String}
    (h : repo.update_run_state i st res = .error e) :
    (i, st) ∈ repo.failures := by
  unfold RepoState.update_run_state at h
  split at h
  · assumption
  · exact absurd h (by simp)

theorem get_map_applyUpd (docs : List Doc) (i : Nat)
    (st : ExecutionRunState) (res : Option ExecutionResult) (j : Nat) :
    (docs.map (applyUpd i st res)).find? (fun d => d.id == j) =
      (docs.find? (fun d => d.id == j)).map (applyUpd i st res) := by
  rw [List.find?_map]
  have hp : ((fun d => d.id == j) ∘ applyUpd i st res) =
      (fun d : Doc => d.id == j) := by
    funext d
    simp [Function.comp, applyUpd_id]
  rw [hp]

theorem get_update_ok {repo repo' : RepoState} {i : Nat}
    {st : ExecutionRunState} {res : Option ExecutionResult}
    (h : repo.update_run_state i st res = .ok repo') (j : Nat) :
    repo'.get j = (repo.get j).map (applyUpd i st res) := by
  obtain ⟨-, rfl⟩ := update_run_state_ok_elim h
  have := get_map_applyUpd repo.docs i st res j
  simpa [RepoState.get] using this

theorem get_id {repo : RepoState} {j : Nat} {d : Doc}
    (h : repo.get j = some d) : d.id = j := by
  have := List.find?_some h
  simpa using this

theorem mem_of_get {repo : RepoState} {j : Nat} {d : Doc}
    (h : repo.get j = some d) : d ∈ repo.docs :=
  List.mem_of_find?_eq_some h

theorem get_update_ne {repo repo' : RepoState} {i : Nat}
    {st : ExecutionRunState} {res : Option ExecutionResult}
    (h : repo.update_run_state i st res = .ok repo') {j : Nat}
    (hj : j ≠ i) : repo'.get j = repo.get j := by
  rw [get_update_ok h]
  cases hg : repo.get j with
  | none => rfl
  | some d =>
      have hid := get_id hg
      simp [applyUpd, hid, hj]

theorem failures_update_ok {repo repo' : RepoState} {i : Nat}
    {st : ExecutionRunState} {res : Option ExecutionResult}
    (h : repo.update_run_state i st res = .ok repo') :
    repo'.failures = repo.failures := by
  obtain ⟨-, rfl⟩ := update_run_state_ok_elim h
  rfl

theorem get_update_self {repo repo' : RepoState} {i : Nat}
    {st : ExecutionRunState} {res : Option ExecutionResult}
    (h : repo.update_run_state i st res = .ok repo') {d : Doc}
    (hd : repo.get i = some d) :
    repo'.get i = some (applyUpd i st res d) := by
  rw [get_update_ok h, hd]
  rfl

theorem applyUpd_run_state {i : Nat} {st : ExecutionRunState}
    {res : Option ExecutionResult} {d : Doc} (hd : d.id = i) :
    (applyUpd i st res d).run_state = st := by
  simp [applyUpd, hd]

theorem DrivenTo.of_update {repo repo' : RepoState} {i : Nat}
    {st : ExecutionRunState} {res : Option ExecutionResult}
    (h : repo.update_run_state i st res = .ok repo') :
    DrivenTo i st repo repo' := by
  refine ⟨failures_update_ok h, fun j hj => get_update_ne h hj,
    fun d hd => ⟨applyUpd i st res d, get_update_self h hd, ?_⟩⟩
  exact applyUpd_run_state (get_id hd)

theorem DrivenTo.trans {repo repo1 repo' : RepoState} {i : Nat}
    {st1 st2 : ExecutionRunState}
    (h1 : DrivenTo i st1 repo repo1) (h2 : DrivenTo i st2 repo1 repo') :
    DrivenTo i st2 repo repo' := by
  obtain ⟨hf1, hne1, hself1⟩ := h1
  obtain ⟨hf2, hne2, hself2⟩ := h2
  refine ⟨hf2.trans hf1, fun j hj => (hne2 j hj).trans (hne1 j hj),
    fun d hd => ?_⟩
  obtain ⟨d1, hd1, -⟩ := hself1 d hd
  exact hself2 d1 hd1

theorem DrivenTo.refl_of_get {repo : RepoState} {i : Nat}
    {st : ExecutionRunState}
    (h : ∀ d, repo.get i = some d → d.run_state = st) :
    DrivenTo i st repo repo :=
  ⟨rfl, fun _ _ => rfl, fun d hd => ⟨d, hd, h d hd⟩⟩

/-! ### Batch-step case analysis -/

theorem execute_operator_repo {env : Env} {repo : RepoState} {op : Doc}
    {r0 : Except String (Option ExecutionResult)} {repo1 : RepoState}
    {evs1 : List Event}
    (h : _execute_operator env repo op = (r0, repo1, evs1)) :
    repo1 = repo ∨ ∃ st0, DrivenTo op.id st0 repo repo1 := by
  simp only [_execute_operator] at h
  split at h
  · -- resolution yielded an immediate failure result
    split at h
    · -- set_failed succeeded
      rename_i repo2 heq
      simp only [Prod.mk.injEq] at h
      obtain ⟨-, h2, -⟩ := h
      subst h2
      simp only [set_failed] at heq
      exact Or.inr ⟨.failed, DrivenTo.of_update heq⟩
    · -- set_failed raised
      rename_i e heq
      simp only [Prod.mk.injEq] at h
      obtain ⟨-, h2, -⟩ := h
      subst h2
      exact Or.inl rfl
  · -- resolution succeeded
    split at h
    · -- set_running raised
      rename_i e heq
      simp only [Prod.mk.injEq] at h
      obtain ⟨-, h2, -⟩ := h
      subst h2
      exact Or.inl rfl
    · -- set_running succeeded
      rename_i repo2 heq
      simp only [set_running] at heq
      split at h <;>
      · simp only [Prod.mk.injEq] at h
        obtain ⟨-, h2, -⟩ := h
        subst h2
        exact Or.inr ⟨.running, DrivenTo.of_update heq⟩

theorem execOne_none_spec {env : Env} {log : Bool} {repo : RepoState}
    {op : Doc} {repo' : RepoState} {evs : List Event}
    (h : execOne env log repo op = (repo', evs, none)) :
    ∃ st, isTerminal st = true ∧ DrivenTo op.id st repo repo' := by
  simp only [execOne] at h
  split at h
  · -- _execute_operator returned normally
    rename_i result repo1 evs1 hex
    have hrel := execute_operator_repo hex
    split at h
    · -- set_completed succeeded
      rename_i repo2 heq
      simp only [Prod.mk.injEq] at h
      obtain ⟨h1, -, -⟩ := h
      subst h1
      simp only [set_completed] at heq
      have hd2 : DrivenTo op.id .completed repo1 repo2 :=
        DrivenTo.of_update heq
      rcases hrel with rfl | ⟨st0, h0⟩
      · exact ⟨.completed, rfl, hd2⟩
      · exact ⟨.completed, rfl, h0.trans hd2⟩
    · -- set_completed raised; the handler runs
      rename_i e heq
      simp only [handleFailure] at h
      split at h
      · rename_i repo2 heq2
        simp only [Prod.mk.injEq] at h
        obtain ⟨h1, -, -⟩ := h
        subst h1
        simp only [set_failed] at heq2
        have hd2 : DrivenTo op.id .failed repo1 repo2 :=
          DrivenTo.of_update heq2
        rcases hrel with rfl | ⟨st0, h0⟩
        · exact ⟨.failed, rfl, hd2⟩
        · exact ⟨.failed, rfl, h0.trans hd2⟩
      · simp only [Prod.mk.injEq] at h
        obtain ⟨-, -, h3⟩ := h
        exact absurd h3 (by simp)
  · -- _execute_operator raised; the handler runs
    rename_i e repo1 evs1 hex
    have hrel := execute_operator_repo hex
    simp only [handleFailure] at h
    split at h
    · rename_i repo2 heq2
      simp only [Prod.mk.injEq] at h
      obtain ⟨h1, -, -⟩ := h
      subst h1
      simp only [set_failed] at heq2
      have hd2 : DrivenTo op.id .failed repo1 repo2 :=
        DrivenTo.of_update heq2
      rcases hrel with rfl | ⟨st0, h0⟩
      · exact ⟨.failed, rfl, hd2⟩
      · exact ⟨.failed, rfl, h0.trans hd2⟩
    · simp only [Prod.mk.injEq] at h
      obtain ⟨-, -, h3⟩ := h
      exact absurd h3 (by simp)

theorem execLoop_none_elim {env : Env} {log : Bool} {op : Doc}
    {rest : List Doc} {repo repo' : RepoState} {evs : List Event}
    (h : execLoop env log (op :: rest) repo = (repo', evs, none)) :
    ∃ repo1 evs1 evs2,
      execOne env log repo op = (repo1, evs1, none) ∧
      execLoop env log rest repo1 = (repo', evs2, none) ∧
      evs = evs1 ++ evs2 := by
  simp only [execLoop] at h
  split at h
  · simp only [Prod.mk.injEq] at h
    obtain ⟨-, -, h3⟩ := h
    exact absurd h3 (by simp)
  · rename_i repo1 evs1 heq1
    rcases hE : execLoop env log rest repo1 with ⟨repo2, evs2, exc⟩
    rw [hE] at h
    simp only [Prod.mk.injEq] at h
    obtain ⟨h1, h2, h3⟩ := h
    subst h1
    subst h3
    exact ⟨repo1, evs1, evs2, heq1, hE, h2.symm⟩

theorem execLoop_none_get_ne {env : Env} {log : Bool} :
    ∀ {ops : List Doc} {repo repo' : RepoState} {evs : List Event},
      execLoop env log ops repo = (repo', evs, none) →
      ∀ j, (∀ op ∈ ops, op.id ≠ j) → repo'.get j = repo.get j := by
  intro ops
  induction ops with
  | nil =>
      intro repo repo' evs h j _
      simp only [execLoop, Prod.mk.injEq] at h
      obtain ⟨h1, -, -⟩ := h
      rw [← h1]
  | cons op rest ih =>
      intro repo repo' evs h j hj
      obtain ⟨repo1, evs1, evs2, heq1, heq2, -⟩ := execLoop_none_elim h
      obtain ⟨st, -, -, hne, -⟩ := execOne_none_spec heq1
      have h1 : repo'.get j = repo1.get j :=
        ih heq2 j (fun o ho => hj o (List.mem_cons_of_mem _ ho))
      have h2 : repo1.get j = repo.get j :=
        hne j (fun hjj => hj op (List.mem_cons_self _ _) hjj.symm)
      exact h1.trans h2

theorem execLoop_terminal {env : Env} {log : Bool} :
    ∀ {ops : List Doc} {repo repo' : RepoState} {evs : List Event},
      execLoop env log ops repo = (repo', evs, none) →
      (ops.map (fun d => d.id)).Nodup →
      (∀ op ∈ ops, ∃ d, repo.get op.id = some d) →
      ∀ op ∈ ops, ∃ d', repo'.get op.id = some d' ∧
        isTerminal d'.run_state = true := by
  intro ops
  induction ops with
  | nil =>
      intro repo repo' evs _ _ _ op hop
      exact absurd hop (by simp)
  | cons op rest ih =>
      intro repo repo' evs h hnd hpres op' hop'
      obtain ⟨repo1, evs1, evs2, heq1, heq2, -⟩ := execLoop_none_elim h
      obtain ⟨st, hterm, -, hne, hself⟩ := execOne_none_spec heq1
      rw [List.map_cons, List.nodup_cons] at hnd
      obtain ⟨hnotin, hndrest⟩ := hnd
      rcases List.mem_cons.mp hop' with rfl | hmem
      · -- the head document: driven terminal, untouched by the rest
        obtain ⟨d, hd⟩ := hpres op' (List.mem_cons_self _ _)
        obtain ⟨d1, hd1, hst1⟩ := hself d hd
        have hrest_ne : ∀ o ∈ rest, o.id ≠ op'.id := by
          intro o ho hoe
          exact hnotin (List.mem_map.mpr ⟨o, ho, hoe⟩)
        have := execLoop_none_get_ne heq2 op'.id hrest_ne
        exact ⟨d1, this.trans hd1, by rw [hst1]; exact hterm⟩
      · -- a later document: handled by the induction hypothesis
        refine ih heq2 hndrest ?_ op' hmem
        intro o ho
        obtain ⟨d, hd⟩ := hpres o (List.mem_cons_of_mem _ ho)
        have hoid : o.id ≠ op.id := by
          intro hoe
          exact hnotin (List.mem_map.mpr ⟨o, ho, hoe⟩)
        exact ⟨d, (hne o.id hoid).trans hd⟩

theorem list_operations_sublist (repo : RepoState) (o ds : Option String)
    (rs : Option ExecutionRunState) (t : Option String)
    (pg : Option DelegatedOpPagingParams) :
    List.Sublist (repo.list_operations o ds rs t pg) repo.docs := by
  unfold RepoState.list_operations
  cases pg with
  | none => exact List.filter_sublist _
  | some p => exact (List.take_sublist _ _).trans (List.filter_sublist _)

theorem execOne_noFailures (env : Env) (log : Bool) (repo : RepoState)
    (op : Doc) (h : repo.failures = []) :
    (execOne env log repo op).2.1 = docTrace env log op ∧
    (execOne env log repo op).2.2 = none ∧
    (execOne env log repo op).1.failures = [] := by
  rcases hp : prepare_operator_executor env op.operator
      (setParam op.context.request_params "run_doc" (.vId op.id))
    with r | ⟨b, ctxParams⟩
  · simp [execOne, _execute_operator, docTrace, hp, set_failed,
      set_completed, RepoState.update_run_state, h]
  · cases b with
    | returns r =>
        simp [execOne, _execute_operator, docTrace, hp, set_running,
          set_completed, RepoState.update_run_state, h]
    | throws msg =>
        simp [execOne, _execute_operator, docTrace, hp, set_running,
          set_failed, handleFailure, RepoState.update_run_state, h]

theorem execLoop_noFailures (env : Env) (log : Bool) :
    ∀ (ops : List Doc) (repo : RepoState), repo.failures = [] →
      (execLoop env log ops repo).2.1 =
        (ops.map (docTrace env log)).flatten ∧
      (execLoop env log ops repo).2.2 = none ∧
      (execLoop env log ops repo).1.failures = [] := by
  intro ops
  induction ops with
  | nil =>
      intro repo h
      exact ⟨rfl, rfl, h⟩
  | cons op rest ih =>
      intro repo h
      obtain ⟨h1, h2, h3⟩ := execOne_noFailures env log repo op h
      rcases hE : execOne env log repo op with ⟨repo1, evs1, e1⟩
      rw [hE] at h1 h2 h3
      simp only at h1 h2 h3
      subst h2
      obtain ⟨g1, g2, g3⟩ := ih repo1 h3
      rcases hL : execLoop env log rest repo1 with ⟨repo2, evs2, e2⟩
      rw [hL] at g1 g2 g3
      simp only at g1 g2 g3
      simp only [execLoop, hE, hL]
      exact ⟨by simp [h1, g1], g2, g3⟩

theorem execOne_log_indep (env : Env) (repo : RepoState) (op : Doc) :
    (execOne env true repo op).1 = (execOne env false repo op).1 ∧
    (execOne env true repo op).2.2 = (execOne env false repo op).2.2 ∧
    repoEvents (execOne env true repo op).2.1 =
      repoEvents (execOne env false repo op).2.1 := by
  rcases hx : _execute_operator env repo op with ⟨r0, repo1, evs1⟩
  cases r0 with
  | ok result =>
      rcases hc : set_completed repo1 op.id result with e | repo2
      · rcases hf : set_failed repo1 op.id ⟨none, some (format_exc e)⟩
          with e2 | repo2'
        · simp [execOne, hx, hc, handleFailure, hf, repoEvents, logEv,
            Event.isLogMsg]
        · simp [execOne, hx, hc, handleFailure, hf, repoEvents, logEv,
            Event.isLogMsg]
      · simp [execOne, hx, hc, repoEvents, logEv, Event.isLogMsg]
  | error e =>
      rcases hf : set_failed repo1 op.id ⟨none, some (format_exc e)⟩
        with e2 | repo2'
      · simp [execOne, hx, handleFailure, hf, repoEvents, logEv,
          Event.isLogMsg]
      · simp [execOne, hx, handleFailure, hf, repoEvents, logEv,
          Event.isLogMsg]

theorem execLoop_log_indep (env : Env) :
    ∀ (ops : List Doc) (repo : RepoState),
      (execLoop env true ops repo).1 = (execLoop env false ops repo).1 ∧
      (execLoop env true ops repo).2.2 =
        (execLoop env false ops repo).2.2 ∧
      repoEvents (execLoop env true ops repo).2.1 =
        repoEvents (execLoop env false ops repo).2.1 := by
  intro ops
  induction ops with
  | nil =>
      intro repo
      exact ⟨rfl, rfl, rfl⟩
  | cons op rest ih =>
      intro repo
      obtain ⟨h1, h2, h3⟩ := execOne_log_indep env repo op
      rcases hT : execOne env true repo op with ⟨repoT, evsT, eT⟩
      rcases hF : execOne env false repo op with ⟨repoF, evsF, eF⟩
      rw [hT, hF] at h1 h2 h3
      simp only at h1 h2 h3
      subst h1
      subst h2
      cases eT with
      | some e =>
          simp only [execLoop, hT, hF]
          exact ⟨trivial, trivial, h3⟩
      | none =>
          obtain ⟨g1, g2, g3⟩ := ih repoT
          rcases hLT : execLoop env true rest repoT with ⟨repoT2, evsT2, eT2⟩
          rcases hLF : execLoop env false rest repoT with ⟨repoF2, evsF2, eF2⟩
          rw [hLT, hLF] at g1 g2 g3
          simp only at g1 g2 g3
          simp only [execLoop, hT, hF, hLT, hLF]
          refine ⟨g1, g2, ?_⟩
          simp only [repoEvents, List.filter_append] at h3 g3 ⊢
          rw [h3, g3]

theorem countResolves_docTrace (env : Env) (log : Bool) (op : Doc) :
    countResolves (docTrace env log op) = 1 := by
  rcases hp : prepare_operator_executor env op.operator
      (setParam op.context.request_params "run_doc" (.vId op.id))
    with r | ⟨b, ctxParams⟩
  · cases log <;> simp [docTrace, countResolves, hp, logEv]
  · cases b with
    | returns r => cases log <;> simp [docTrace, countResolves, hp, logEv]
    | throws msg => cases log <;> simp [docTrace, countResolves, hp, logEv]

theorem countResolves_append (l1 l2 : List Event) :
    countResolves (l1 ++ l2) = countResolves l1 + countResolves l2 := by
  simp [countResolves, List.filter_append]

theorem countResolves_flatten_docTrace (env : Env) (log : Bool) :
    ∀ ops : List Doc,
      countResolves ((ops.map (docTrace env log)).flatten) = ops.length := by
  intro ops
  induction ops with
  | nil => simp [countResolves]
  | cons op rest ih =>
      simp only [List.map_cons, List.flatten_cons, countResolves_append,
        countResolves_docTrace, ih, List.length_cons]
      omega

theorem list_operations_limit_length (repo : RepoState)
    (o ds : Option String) (rs : Option ExecutionRunState)
    (t : Option String) (N : Nat) :
    (repo.list_operations o ds rs t (some ⟨N⟩)).length ≤ N := by
  unfold RepoState.list_operations
  simp only [List.length_take]
  omega

theorem update_run_state_error_of_mem {repo : RepoState} {i : Nat}
    {st : ExecutionRunState} (res : Option ExecutionResult)
    (h : (i, st) ∈ repo.failures) :
    repo.update_run_state i st res = .error "repository error" := by
  unfold RepoState.update_run_state
  simp [h]

theorem applyUpd_result_some {i : Nat} {st : ExecutionRunState}
    {r : ExecutionResult} {d : Doc} (hd : d.id = i) :
    (applyUpd i st (some r) d).result = some r := by
  simp [applyUpd, hd]

theorem prepare_prepared_params {env : Env} {uri : String}
    {params : RequestParams} {b : ExecBehavior} {ctx : RequestParams}
    (h : prepare_operator_executor env uri params = .prepared b ctx) :
    ctx = params := by
  unfold prepare_operator_executor at h
  split at h <;> simp_all

theorem lookup_setParam (ps : RequestParams) (k : String) (v : ParamValue) :
    (setParam ps k v).lookup k = some v := by
  simp [setParam, List.lookup]

/-! ### Claim theorems -/

/-- C2 (evaluation at the failing input): on a queued document whose
operator cannot be resolved, the code does transition it to FAILED with
the failure result, never transitions it to RUNNING, and never invokes an
execution entry point — but `_execute_operator` then returns `None`
instead of stopping, so the loop's `set_completed` overwrites the state
and the document ends the pass COMPLETED rather than FAILED. -/
theorem resolution_failure_overwritten_to_completed :
    updatesFor 0 (execute_queued_operations envEmpty none none none none
      false repoMissing).2.1 =
      [(.failed, some ⟨none, some "Operator missing-op does not exist"⟩),
       (.completed, none)] ∧
    execCalledFor 0 (execute_queued_operations envEmpty none none none
      none false repoMissing).2.1 = false ∧
    (execute_queued_operations envEmpty none none none none false
      repoMissing).2.2 = none ∧
    stateOf (execute_queued_operations envEmpty none none none none false
      repoMissing).1 0 = some .completed := by
  decide

/-- C3: `execute_queued_operations` processes the listed queued documents
sequentially in the order the repository returns them — its event trace
is exactly the in-order concatenation of each listed document's own
per-document trace — so an exception raised while executing one document
(e.g. a throwing operator) does not abort the later documents, and the
call returns to its caller without raising. -/
theorem execute_sequential_no_abort (env : Env)
    (o t ds : Option String) (lim : Option Nat) (log : Bool)
    (repo : RepoState) (h : repo.failures = []) :
    (execute_queued_operations env o t ds lim log repo).2.1 =
      ((list_operations repo o ds (some .queued) t
        (lim.map DelegatedOpPagingParams.mk)).map
          (docTrace env log)).flatten ∧
    (execute_queued_operations env o t ds lim log repo).2.2 = none := by
  obtain ⟨h1, h2, -⟩ := execLoop_noFailures env log
    (list_operations repo o ds (some .queued) t
      (lim.map DelegatedOpPagingParams.mk)) repo h
  exact ⟨h1, h2⟩

/-- Witness for C3: two queued documents, the second one's operator
raises; the trace is still the concatenation of both documents' traces
and no exception escapes. -/
theorem execute_sequential_no_abort_witness :
    (execute_queued_operations envEchoBoom none none none none false
      repoTwo).2.1 =
      ((list_operations repoTwo none none (some .queued) none none).map
        (docTrace envEchoBoom false)).flatten ∧
    (execute_queued_operations envEchoBoom none none none none false
      repoTwo).2.2 = none :=
  execute_sequential_no_abort envEchoBoom none none none none false
    repoTwo rfl

/-- C7: with `limit = N` the batch driver builds paging with that limit
and processes at most `N` documents (each processed document contributes
exactly one resolver call to the trace); with `limit` absent no paging is
built and exactly the repository's matching queued documents are
processed. -/
theorem limit_caps_processed (env : Env) (o t ds : Option String)
    (log : Bool) (repo : RepoState) (N : Nat) (hN : 0 < N)
    (h : repo.failures = []) :
    countResolves (execute_queued_operations env o t ds (some N) log
      repo).2.1 ≤ N ∧
    countResolves (execute_queued_operations env o t ds none log
      repo).2.1 =
      (list_operations repo o ds (some .queued) t none).length := by
  obtain ⟨h1, -, -⟩ := execLoop_noFailures env log
    (list_operations repo o ds (some .queued) t
      ((some N).map DelegatedOpPagingParams.mk)) repo h
  obtain ⟨g1, -, -⟩ := execLoop_noFailures env log
    (list_operations repo o ds (some .queued) t
      ((none : Option Nat).map DelegatedOpPagingParams.mk)) repo h
  constructor
  · simp only [execute_queued_operations]
    rw [h1, countResolves_flatten_docTrace]
    simpa using list_operations_limit_length repo o ds (some .queued) t N
  · simp only [execute_queued_operations]
    rw [g1, countResolves_flatten_docTrace]
    simp

/-- Witness for C7: with `limit = 1` and two queued documents only one
resolver call happens; with no limit both documents are processed. -/
theorem limit_caps_processed_witness :
    countResolves (execute_queued_operations envEchoBoom none none none
      (some 1) false repoTwo).2.1 ≤ 1 ∧
    countResolves (execute_queued_operations envEchoBoom none none none
      none false repoTwo).2.1 =
      (list_operations repoTwo none none (some .queued) none
        none).length :=
  limit_caps_processed envEchoBoom none none none false repoTwo 1
    (by decide) rfl

/-- C9: running `execute_queued_operations` with `log = true` and with
`log = false` yields the same final repository state, the same
(absence of an) escaping exception, and exactly the same
repository/resolver/operator events in the same order; the flag only
adds log lines. -/
theorem log_flag_purely_observational (env : Env)
    (o t ds : Option String) (lim : Option Nat) (repo : RepoState) :
    (execute_queued_operations env o t ds lim true repo).1 =
      (execute_queued_operations env o t ds lim false repo).1 ∧
    (execute_queued_operations env o t ds lim true repo).2.2 =
      (execute_queued_operations env o t ds lim false repo).2.2 ∧
    repoEvents (execute_queued_operations env o t ds lim true repo).2.1 =
      repoEvents
        (execute_queued_operations env o t ds lim false repo).2.1 :=
  execLoop_log_indep env
    (list_operations repo o ds (some .queued) t
      (lim.map DelegatedOpPagingParams.mk)) repo

/-- C1: `rerun_operation` on a stored document queues and returns a new
document whose operator, context and delegation target equal the
original's, whose id differs from the original's, which starts in QUEUED
state, and it leaves the original stored document (and the rest of the
store) unchanged. -/
theorem rerun_operation_copies_fields_fresh_id (repo : RepoState)
    (i : Nat) (doc : Doc) (hwf : repo.WF) (hget : repo.get i = some doc) :
    ∃ newdoc repo',
      rerun_operation repo i = .ok (newdoc, repo') ∧
      newdoc.operator = doc.operator ∧
      newdoc.context = doc.context ∧
      newdoc.delegation_target = doc.delegation_target ∧
      newdoc.run_state = .queued ∧
      newdoc.id ≠ doc.id ∧
      repo'.docs = repo.docs ++ [newdoc] ∧
      repo'.get i = some doc := by
  have hmem := mem_of_get hget
  have hlt := hwf.2 doc hmem
  have hfind : repo.docs.find? (fun d => d.id == i) = some doc := hget
  refine ⟨⟨repo.nextId, doc.operator, doc.delegation_target, none,
      doc.context, .queued, none, false⟩,
    { repo with
        docs := repo.docs ++ [⟨repo.nextId, doc.operator,
          doc.delegation_target, none, doc.context, .queued, none,
          false⟩],
        nextId := repo.nextId + 1 },
    ?_, rfl, rfl, rfl, rfl, ?_, rfl, ?_⟩
  · simp [rerun_operation, hget, RepoState.queue_operation]
  · show repo.nextId ≠ doc.id
    omega
  · simp [RepoState.get, List.find?_append, hfind]

/-- Witness for C1: rerunning the stored `echo` document of `repoTwo`. -/
theorem rerun_operation_witness :
    ∃ newdoc repo',
      rerun_operation repoTwo 0 = .ok (newdoc, repo') ∧
      newdoc.operator = docEcho.operator ∧
      newdoc.context = docEcho.context ∧
      newdoc.delegation_target = docEcho.delegation_target ∧
      newdoc.run_state = .queued ∧
      newdoc.id ≠ docEcho.id ∧
      repo'.docs = repoTwo.docs ++ [newdoc] ∧
      repo'.get 0 = some docEcho :=
  rerun_operation_copies_fields_fresh_id repoTwo 0 docEcho
    ⟨by decide, by decide⟩ (by decide)

/-- C5: after one complete pass of `execute_queued_operations` that
returns to its caller (no crash mid-loop), every document it listed is
stored in a terminal run state — COMPLETED or FAILED. -/
theorem pass_leaves_all_terminal (env : Env) (o t ds : Option String)
    (lim : Option Nat) (log : Bool) (repo : RepoState) (hwf : repo.WF)
    (hnone :
      (execute_queued_operations env o t ds lim log repo).2.2 = none) :
    ∀ op ∈ list_operations repo o ds (some .queued) t
        (lim.map DelegatedOpPagingParams.mk),
      ∃ d', (execute_queued_operations env o t ds lim log
          repo).1.get op.id = some d' ∧
        isTerminal d'.run_state = true := by
  intro op hop
  rcases hrun : execLoop env log
      (list_operations repo o ds (some .queued) t
        (lim.map DelegatedOpPagingParams.mk)) repo
    with ⟨repo', evs, exc⟩
  have hrun' : execute_queued_operations env o t ds lim log repo =
      (repo', evs, exc) := hrun
  rw [hrun'] at hnone ⊢
  simp only at hnone ⊢
  subst hnone
  have hsub : List.Sublist
      (list_operations repo o ds (some .queued) t
        (lim.map DelegatedOpPagingParams.mk)) repo.docs :=
    list_operations_sublist repo o ds (some .queued) t _
  have hnd := List.Nodup.sublist (hsub.map (fun d => d.id)) hwf.1
  have hpres : ∀ o' ∈ list_operations repo o ds (some .queued) t
      (lim.map DelegatedOpPagingParams.mk),
      ∃ d, repo.get o'.id = some d := by
    intro o' ho'
    have hmem : o' ∈ repo.docs := hsub.subset ho'
    have hs : (repo.docs.find? (fun d => d.id == o'.id)).isSome := by
      rw [List.find?_isSome]
      exact ⟨o', hmem, by simp⟩
    exact Option.isSome_iff_exists.mp hs
  exact execLoop_terminal hrun hnd hpres op hop

/-- Witness for C5: both documents of `repoTwo` (one completing, one
failing) are terminal after the pass. -/
theorem pass_leaves_all_terminal_witness :
    ∃ d', (execute_queued_operations envEchoBoom none none none none
        false repoTwo).1.get docEcho.id = some d' ∧
      isTerminal d'.run_state = true :=
  pass_leaves_all_terminal envEchoBoom none none none none false repoTwo
    ⟨by decide, by decide⟩ (by decide) docEcho (by decide)

/-- C6: on a queued document whose operator resolves and whose execution
returns a result, the loop body first transitions the document to
RUNNING, then invokes the execution entry point (the `execCall` event
follows the RUNNING transition in the trace), returns the result to the
driver, which transitions the document to COMPLETED with that result: the
document passes through QUEUED (hypothesis), RUNNING, COMPLETED. -/
theorem resolution_success_runs_then_completes (env : Env) (log : Bool)
    (repo : RepoState) (op : Doc) (r : ExecutionResult)
    (hres : env.registry.lookup op.operator =
      some (.resolvesTo (.returns r)))
    (hq : stateOf repo op.id = some .queued)
    (hr : (op.id, ExecutionRunState.running) ∉ repo.failures)
    (hc : (op.id, ExecutionRunState.completed) ∉ repo.failures) :
    (execOne env log repo op).2.1 =
      logEv log ("Running operation " ++ toString op.id ++ " ("
          ++ op.operator ++ ")")
        ++ [Event.resolve op.operator
              (setParam op.context.request_params "run_doc" (.vId op.id)),
            Event.updateState op.id .running none,
            Event.execCall op.operator
              (setParam op.context.request_params "run_doc" (.vId op.id)),
            Event.updateState op.id .completed (some r)]
        ++ logEv log ("Operation " ++ toString op.id ++ " complete") ∧
    (execOne env log repo op).2.2 = none ∧
    stateOf (execOne env log repo op).1 op.id = some .completed ∧
    resultOf (execOne env log repo op).1 op.id = some (some r) := by
  obtain ⟨d, hd⟩ : ∃ d, repo.get op.id = some d := by
    unfold stateOf at hq
    rcases hg : repo.get op.id with _ | d
    · rw [hg] at hq
      simp at hq
    · exact ⟨d, rfl⟩
  have hid := get_id hd
  have hp : prepare_operator_executor env op.operator
      (setParam op.context.request_params "run_doc" (.vId op.id)) =
      .prepared (.returns r)
        (setParam op.context.request_params "run_doc" (.vId op.id)) := by
    simp [prepare_operator_executor, hres]
  have h1 := @update_run_state_ok_of_not_mem repo op.id
    ExecutionRunState.running none hr
  have h2 := @update_run_state_ok_of_not_mem
    { repo with docs :=
        repo.docs.map (applyUpd op.id ExecutionRunState.running none) }
    op.id ExecutionRunState.completed (some r) hc
  have hg1 := get_update_self h1 hd
  have hg2 := get_update_self h2 hg1
  refine ⟨?_, ?_, ?_, ?_⟩
  · simp [execOne, _execute_operator, hp, set_running, set_completed,
      h1, h2]
  · simp [execOne, _execute_operator, hp, set_running, set_completed,
      h1, h2]
  · simp only [execOne, _execute_operator, hp, set_running,
      set_completed, h1, h2, stateOf]
    rw [hg2]
    simp [applyUpd, hid]
  · simp only [execOne, _execute_operator, hp, set_running,
      set_completed, h1, h2, resultOf]
    rw [hg2]
    simp [applyUpd, hid]

/-- Witness for C6: the `echo` document of `repoTwo`. -/
theorem resolution_success_runs_then_completes_witness :
    (execOne envEchoBoom false repoTwo docEcho).2.1 =
      logEv false ("Running operation " ++ toString docEcho.id ++ " ("
          ++ docEcho.operator ++ ")")
        ++ [Event.resolve docEcho.operator
              (setParam docEcho.context.request_params "run_doc"
                (.vId docEcho.id)),
            Event.updateState docEcho.id .running none,
            Event.execCall docEcho.operator
              (setParam docEcho.context.request_params "run_doc"
                (.vId docEcho.id)),
            Event.updateState docEcho.id .completed (some echoResult)]
        ++ logEv false ("Operation " ++ toString docEcho.id
            ++ " complete") ∧
    (execOne envEchoBoom false repoTwo docEcho).2.2 = none ∧
    stateOf (execOne envEchoBoom false repoTwo docEcho).1 docEcho.id =
      some .completed ∧
    resultOf (execOne envEchoBoom false repoTwo docEcho).1 docEcho.id =
      some (some echoResult) :=
  resolution_success_runs_then_completes envEchoBoom false repoTwo
    docEcho echoResult (by decide) (by decide) (by decide) (by decide)

/-- C4: on a queued document whose operator resolves but whose execution
raises, the loop body catches the exception and transitions the document
to FAILED, storing the full error trace as the result. -/
theorem execution_exception_sets_failed (env : Env) (log : Bool)
    (repo : RepoState) (op : Doc) (msg : String)
    (hres : env.registry.lookup op.operator =
      some (.resolvesTo (.throws msg)))
    (hq : stateOf repo op.id = some .queued)
    (hr : (op.id, ExecutionRunState.running) ∉ repo.failures)
    (hf : (op.id, ExecutionRunState.failed) ∉ repo.failures) :
    (execOne env log repo op).2.2 = none ∧
    stateOf (execOne env log repo op).1 op.id = some .failed ∧
    resultOf (execOne env log repo op).1 op.id =
      some (some ⟨none, some (format_exc msg)⟩) := by
  obtain ⟨d, hd⟩ : ∃ d, repo.get op.id = some d := by
    unfold stateOf at hq
    rcases hg : repo.get op.id with _ | d
    · rw [hg] at hq
      simp at hq
    · exact ⟨d, rfl⟩
  have hid := get_id hd
  have hp : prepare_operator_executor env op.operator
      (setParam op.context.request_params "run_doc" (.vId op.id)) =
      .prepared (.throws msg)
        (setParam op.context.request_params "run_doc" (.vId op.id)) := by
    simp [prepare_operator_executor, hres]
  have h1 := @update_run_state_ok_of_not_mem repo op.id
    ExecutionRunState.running none hr
  have h2 := @update_run_state_ok_of_not_mem
    { repo with docs :=
        repo.docs.map (applyUpd op.id ExecutionRunState.running none) }
    op.id ExecutionRunState.failed
    (some ⟨none, some (format_exc msg)⟩) hf
  have hg1 := get_update_self h1 hd
  have hg2 := get_update_self h2 hg1
  refine ⟨?_, ?_, ?_⟩
  · simp [execOne, _execute_operator, handleFailure, hp, set_running,
      set_failed, h1, h2]
  · simp only [execOne, _execute_operator, handleFailure, hp,
      set_running, set_failed, h1, h2, stateOf]
    rw [hg2]
    simp [applyUpd, hid]
  · simp only [execOne, _execute_operator, handleFailure, hp,
      set_running, set_failed, h1, h2, resultOf]
    rw [hg2]
    simp [applyUpd, hid]

/-- Witness for C4: the throwing `boom` document of `repoTwo`. -/
theorem execution_exception_sets_failed_witness :
    (execOne envEchoBoom false repoTwo docBoom).2.2 = none ∧
    stateOf (execOne envEchoBoom false repoTwo docBoom).1 docBoom.id =
      some .failed ∧
    resultOf (execOne envEchoBoom false repoTwo docBoom).1 docBoom.id =
      some (some ⟨none, some (format_exc "kaboom")⟩) :=
  execution_exception_sets_failed envEchoBoom false repoTwo docBoom
    "kaboom" (by decide) (by decide) (by decide) (by decide)

/-- C10: on a queued document whose operator executes successfully but
whose `set_completed` repository call raises, the per-document handler
catches the repository error and transitions the document to FAILED with
the error trace as the result, and nothing propagates to the caller. -/
theorem set_completed_error_caught (env : Env) (log : Bool)
    (repo : RepoState) (op : Doc) (r : ExecutionResult)
    (hres : env.registry.lookup op.operator =
      some (.resolvesTo (.returns r)))
    (hq : stateOf repo op.id = some .queued)
    (hr : (op.id, ExecutionRunState.running) ∉ repo.failures)
    (hc : (op.id, ExecutionRunState.completed) ∈ repo.failures)
    (hf : (op.id, ExecutionRunState.failed) ∉ repo.failures) :
    (execOne env log repo op).2.2 = none ∧
    stateOf (execOne env log repo op).1 op.id = some .failed ∧
    resultOf (execOne env log repo op).1 op.id =
      some (some ⟨none, some (format_exc "repository error")⟩) := by
  obtain ⟨d, hd⟩ : ∃ d, repo.get op.id = some d := by
    unfold stateOf at hq
    rcases hg : repo.get op.id with _ | d
    · rw [hg] at hq
      simp at hq
    · exact ⟨d, rfl⟩
  have hid := get_id hd
  have hp : prepare_operator_executor env op.operator
      (setParam op.context.request_params "run_doc" (.vId op.id)) =
      .prepared (.returns r)
        (setParam op.context.request_params "run_doc" (.vId op.id)) := by
    simp [prepare_operator_executor, hres]
  have h1 := @update_run_state_ok_of_not_mem repo op.id
    ExecutionRunState.running none hr
  have h2 := @update_run_state_error_of_mem
    { repo with docs :=
        repo.docs.map (applyUpd op.id ExecutionRunState.running none) }
    op.id ExecutionRunState.completed (some r) hc
  have h3 := @update_run_state_ok_of_not_mem
    { repo with docs :=
        repo.docs.map (applyUpd op.id ExecutionRunState.running none) }
    op.id ExecutionRunState.failed
    (some ⟨none, some (format_exc "repository error")⟩) hf
  have hg1 := get_update_self h1 hd
  have hg3 := get_update_self h3 hg1
  refine ⟨?_, ?_, ?_⟩
  · simp [execOne, _execute_operator, handleFailure, hp, set_running,
      set_completed, set_failed, h1, h2, h3]
  · simp only [execOne, _execute_operator, handleFailure, hp,
      set_running, set_completed, set_failed, h1, h2, h3, stateOf]
    rw [hg3]
    simp [applyUpd, hid]
  · simp only [execOne, _execute_operator, handleFailure, hp,
      set_running, set_completed, set_failed, h1, h2, h3, resultOf]
    rw [hg3]
    simp [applyUpd, hid]

/-- Witness for C10: `repoCompleteFails` raises on the COMPLETED
transition for the `echo` document. -/
theorem set_completed_error_caught_witness :
    (execOne envEchoBoom false repoCompleteFails docEcho).2.2 = none ∧
    stateOf (execOne envEchoBoom false repoCompleteFails docEcho).1
      docEcho.id = some .failed ∧
    resultOf (execOne envEchoBoom false repoCompleteFails docEcho).1
      docEcho.id =
      some (some ⟨none, some (format_exc "repository error")⟩) :=
  set_completed_error_caught envEchoBoom false repoCompleteFails docEcho
    echoResult (by decide) (by decide) (by decide) (by decide)
    (by decide)

/-- C8: single-operation execution injects the document's own id into the
context's request parameters under the reserved key `run_doc` before
resolving: a resolver call always occurs, every resolver call in the
trace of `_execute_operator` carries parameters whose `run_doc` entry is
the document's id, and whenever the execution entry point is invoked its
bound context carries that same entry. -/
theorem run_doc_injected_before_resolution (env : Env) (repo : RepoState)
    (doc : Doc) :
    (∃ ps, Event.resolve doc.operator ps ∈
      (_execute_operator env repo doc).2.2) ∧
    (∀ uri ps,
      Event.resolve uri ps ∈ (_execute_operator env repo doc).2.2 →
        ps.lookup "run_doc" = some (.vId doc.id)) ∧
    (∀ uri ps,
      Event.execCall uri ps ∈ (_execute_operator env repo doc).2.2 →
        ps.lookup "run_doc" = some (.vId doc.id)) := by
  have hlook := lookup_setParam doc.context.request_params "run_doc"
    (.vId doc.id)
  rcases hp : prepare_operator_executor env doc.operator
      (setParam doc.context.request_params "run_doc" (.vId doc.id))
    with r | ⟨b, ctx⟩
  · rcases hsf : set_failed repo doc.id r with e | repo1 <;>
    · refine ⟨⟨setParam doc.context.request_params "run_doc"
        (.vId doc.id), ?_⟩, ?_, ?_⟩
      · simp [_execute_operator, hp, hsf]
      · intro uri ps hm
        simp [_execute_operator, hp, hsf] at hm
        obtain ⟨-, rfl⟩ := hm
        exact hlook
      · intro uri ps hm
        simp [_execute_operator, hp, hsf] at hm
  · have hctx := prepare_prepared_params hp
    subst hctx
    rcases hsr : set_running repo doc.id with e | repo1
    · refine ⟨⟨setParam doc.context.request_params "run_doc"
        (.vId doc.id), ?_⟩, ?_, ?_⟩
      · simp [_execute_operator, hp, hsr]
      · intro uri ps hm
        simp [_execute_operator, hp, hsr] at hm
        obtain ⟨-, rfl⟩ := hm
        exact hlook
      · intro uri ps hm
        simp [_execute_operator, hp, hsr] at hm
    · cases b <;>
      · refine ⟨⟨setParam doc.context.request_params "run_doc"
          (.vId doc.id), ?_⟩, ?_, ?_⟩
        · simp [_execute_operator, hp, hsr]
        · intro uri ps hm
          simp [_execute_operator, hp, hsr] at hm
          obtain ⟨-, rfl⟩ := hm
          exact hlook
        · intro uri ps hm
          simp [_execute_operator, hp, hsr] at hm
          obtain ⟨-, rfl⟩ := hm
          exact hlook

/-- Witness for C8: the reserved key is present in the parameters of a
concrete resolver call. -/
theorem run_doc_injected_witness :
    (setParam docEcho.context.request_params "run_doc"
      (.vId docEcho.id)).lookup "run_doc" = some (.vId docEcho.id) :=
  (run_doc_injected_before_resolution envEchoBoom repoTwo docEcho).2.1
    docEcho.operator
    (setParam docEcho.context.request_params "run_doc" (.vId docEcho.id))
    (by decide)

end FO
